import Mathlib

/-
Verification of the EventTarget listener registry (src/script.js).

The registry state is a JavaScript Map from event names to Sets of callback
handles. A JS Map is an insertion-ordered association structure with unique
keys; a JS Set is an insertion-ordered collection without duplicates. We
embed the Map as an association list `List (String × List Nat)` in key
insertion order, and each Set as a `List Nat` in element insertion order.
Callback handles are identity-compared function references; we model a
handle as a `Nat` identity.

Callbacks may themselves mutate the registry during dispatch, so the
dispatch embedding is parameterized by a semantics
`act : Nat → EventTarget → EventTarget` giving, for each handle, the
registry mutation its body performs when invoked. Callbacks receive no
arguments in the source, so `act` takes no event payload. The second
component returned by `dispatchEvent` is the invocation log: the handles
invoked, in invocation order.
-/

namespace EventTargetSpec

/-- State of the private listeners field: the Map from event name to Set
of handles, in key insertion order, each Set in element insertion order. -/
structure EventTarget where
  listeners : List (String × List Nat)
deriving DecidableEq, Repr

/-- `Map.prototype.get`: the value at the first (only) matching key. -/
def mapGet : List (String × List Nat) → String → Option (List Nat)
  | [], _ => none
  | (k, v) :: rest, e => if k = e then some v else mapGet rest e

/-- In-place mutation of the Set object stored under an existing key
(the Map keeps its key at its old position). -/
def mapSetExisting : List (String × List Nat) → String → List Nat → List (String × List Nat)
  | [], _, _ => []
  | (k, v) :: rest, e, w => if k = e then (k, w) :: rest else (k, v) :: mapSetExisting rest e w

/-- `Map.prototype.delete`: removes the first (only) entry with the key. -/
def mapDelete : List (String × List Nat) → String → List (String × List Nat)
  | [], _ => []
  | (k, v) :: rest, e => if k = e then rest else (k, v) :: mapDelete rest e

/-- `Set.prototype.add`: appends the element unless already present
(a present element keeps its position). -/
def setAdd (s : List Nat) (c : Nat) : List Nat :=
  if c ∈ s then s else s ++ [c]

/-- `Set.prototype.delete`: removes the element if present. -/
def setDelete (s : List Nat) (c : Nat) : List Nat :=
  s.filter (fun x => x ≠ c)

/-- `addEventListener(eventName, callback)` from src/script.js lines 17-28:
get the Set for the name, creating a fresh one (appended to the Map) if
absent, then add the callback to the Set. -/
def EventTarget.addEventListener (t : EventTarget) (e : String) (c : Nat) : EventTarget :=
  match mapGet t.listeners e with
  | none => ⟨t.listeners ++ [(e, setAdd [] c)]⟩
  | some s => ⟨mapSetExisting t.listeners e (setAdd s c)⟩

/-- `removeEventListener(eventName, callback)` from src/script.js lines
37-49: if a Set exists for the name, delete the callback from it, and
delete the Map entry when the Set becomes empty. -/
def EventTarget.removeEventListener (t : EventTarget) (e : String) (c : Nat) : EventTarget :=
  match mapGet t.listeners e with
  | none => t
  | some s =>
      if setDelete s c = [] then ⟨mapDelete t.listeners e⟩
      else ⟨mapSetExisting t.listeners e (setDelete s c)⟩

/-- The `[...callbacks].forEach(callback => callback())` loop of
`dispatchEvent`: iterate over the snapshot array, invoking each handle in
turn; each invocation may mutate the registry via `act`, but the iterated
array is the snapshot and is not affected. Returns the final registry
state and the invocation log. -/
def dispatchLoop (act : Nat → EventTarget → EventTarget) :
    List Nat → EventTarget → EventTarget × List Nat
  | [], t => (t, [])
  | c :: rest, t =>
      let r := dispatchLoop act rest (act c t)
      (r.1, c :: r.2)

/-- `dispatchEvent(eventName)` from src/script.js lines 57-68: if a Set
exists for the name, copy it into an array and invoke each handle of the
copy with no arguments; otherwise do nothing. -/
def EventTarget.dispatchEvent (act : Nat → EventTarget → EventTarget)
    (t : EventTarget) (e : String) : EventTarget × List Nat :=
  match mapGet t.listeners e with
  | none => (t, [])
  | some s => dispatchLoop act s t

/-- The handles currently registered for an event name (empty when the
Map has no entry), in Set insertion order. -/
def registered (t : EventTarget) (e : String) : List Nat :=
  (mapGet t.listeners e).getD []

/-- The registry a `new EventTarget()` starts with: an empty Map. -/
def emptyTarget : EventTarget := ⟨[]⟩

/-- A callback semantics where no callback mutates the registry. -/
def pureAct : Nat → EventTarget → EventTarget := fun _ t => t

/-- Representation invariant of the JS `Map<String, Set<Function>>`:
keys are unique (Map), each Set has no duplicates (Set), and — the
documented registry invariant — no entry holds an empty Set. -/
abbrev Inv (t : EventTarget) : Prop :=
  (t.listeners.map Prod.fst).Nodup ∧ ∀ p ∈ t.listeners, p.2.Nodup ∧ p.2 ≠ []

/-- An external operation on the registry. -/
inductive Op where
  | add (e : String) (c : Nat)
  | remove (e : String) (c : Nat)
deriving DecidableEq, Repr

/-- Apply one operation. -/
def applyOp (t : EventTarget) : Op → EventTarget
  | .add e c => t.addEventListener e c
  | .remove e c => t.removeEventListener e c

/-- Apply a sequence of operations in order. -/
def applyOps (ops : List Op) (t : EventTarget) : EventTarget :=
  ops.foldl applyOp t

/-- The operation is not an addition of handle `h` under any event name
other than `a`. -/
def Op.addsOnly : Op → String → Nat → Prop
  | .add e c, a, h => c = h → e = a
  | .remove _ _, _, _ => True

instance (op : Op) (a : String) (h : Nat) : Decidable (op.addsOnly a h) :=
  match op with
  | .add e c => (inferInstance : Decidable (c = h → e = a))
  | .remove _ _ => (inferInstance : Decidable True)

/-- Every addition of handle `h` in the sequence registers it under event
name `a`. -/
abbrev addsOnlyUnder (ops : List Op) (a : String) (h : Nat) : Prop :=
  ∀ op ∈ ops, op.addsOnly a h

/-- One step of the spec-side per-event order model: a JS Set appends a
newly absent element on `add` (a present element keeps its position) and
drops an element on `delete`. -/
def siStep (e : String) (acc : List Nat) : Op → List Nat
  | .add e' c => if e' = e then setAdd acc c else acc
  | .remove e' c => if e' = e then setDelete acc c else acc

/-- Spec-side model of the Set insertion order for event name `e` after a
sequence of operations from a fresh registry: the order of each present
handle's most recent insertion while absent. -/
def setInsertionOrder (ops : List Op) (e : String) : List Nat :=
  ops.foldl (siStep e) []

/-- One step of the first-registration order: a handle is appended the
first time it is ever added under `e`; removals do not erase history. -/
def firstRegStep (e : String) (acc : List Nat) : Op → List Nat
  | .add e' c => if e' = e ∧ c ∉ acc then acc ++ [c] else acc
  | .remove _ _ => acc

/-- The order in which handles were first registered under `e` across a
sequence of operations. -/
def firstRegistrationOrder (ops : List Op) (e : String) : List Nat :=
  ops.foldl (firstRegStep e) []

/-- The invocation order predicted by reading the order as
first-registration order: the snapshotted handles of `e` at state `t`,
sorted by the position of their first registration in `ops`. -/
def claimedDispatchOrder (ops : List Op) (t : EventTarget) (e : String) : List Nat :=
  (firstRegistrationOrder ops e).filter (fun c => (registered t e).contains c)

/-- Handle identities of the sample usage driver (src/script.js lines
73-91). -/
def logHello : Nat := 0

/-- The `logWorld` arrow function of the sample driver. -/
def logWorld : Nat := 1

/-- The anonymous second listener registered on the `world` event in the
sample driver. -/
def worldAgain : Nat := 2

/-- The sample driver registry after its four registrations (including
the ignored duplicate registration of `logHello`). -/
def sampleTarget1 : EventTarget :=
  ((((emptyTarget.addEventListener "hello" logHello).addEventListener
      "world" logWorld).addEventListener
      "world" worldAgain).addEventListener
      "hello" logHello)

/-- The sample driver registry after `removeEventListener("hello", logHello)`. -/
def sampleTarget2 : EventTarget :=
  sampleTarget1.removeEventListener "hello" logHello

/-- A re-entrant callback semantics used as a concrete instance: when
handle 0 is invoked, its body adds handle 5 under event `evt` and removes
handle 1 from `evt`. -/
def reentrantAct : Nat → EventTarget → EventTarget := fun c t =>
  if c = 0 then (t.addEventListener "evt" 5).removeEventListener "evt" 1 else t

/-- A concrete registry with handles 0 and 1 registered under `evt`. -/
def reentrantTarget : EventTarget := ⟨[("evt", [0, 1])]⟩

/-- The operation sequence refuting the first-registration reading of the
invocation order: handle 1 is registered first, but after being removed
and re-added it sits behind handle 2 in the Set. -/
def reAddOps : List Op :=
  [Op.add "e" 1, Op.add "e" 2, Op.remove "e" 1, Op.add "e" 1]

/-! ### Lemmas about the Map embedding -/

theorem mapGet_append_of_ne (m : List (String × List Nat)) (k e : String) (v : List Nat)
    (h : k ≠ e) : mapGet (m ++ [(k, v)]) e = mapGet m e := by
  induction m with
  | nil => simp [mapGet, h]
  | cons p rest ih =>
      obtain ⟨k', v'⟩ := p
      simp only [List.cons_append, mapGet]
      split <;> simp_all

theorem mapGet_append_self (m : List (String × List Nat)) (e : String) (v : List Nat)
    (h : mapGet m e = none) : mapGet (m ++ [(e, v)]) e = some v := by
  induction m with
  | nil => simp [mapGet]
  | cons p rest ih =>
      obtain ⟨k', v'⟩ := p
      simp only [mapGet] at h
      simp only [List.cons_append, mapGet]
      split <;> simp_all

theorem mapGet_mapSetExisting_self (m : List (String × List Nat)) (e : String)
    (s v : List Nat) (h : mapGet m e = some s) :
    mapGet (mapSetExisting m e v) e = some v := by
  induction m with
  | nil => simp [mapGet] at h
  | cons p rest ih =>
      obtain ⟨k', v'⟩ := p
      simp only [mapGet] at h
      simp only [mapSetExisting]
      split <;> simp_all [mapGet]

theorem mapGet_mapSetExisting_of_ne (m : List (String × List Nat)) (k e : String)
    (v : List Nat) (h : k ≠ e) : mapGet (mapSetExisting m k v) e = mapGet m e := by
  induction m with
  | nil => simp [mapSetExisting]
  | cons p rest ih =>
      obtain ⟨k', v'⟩ := p
      simp only [mapSetExisting]
      split <;> simp_all [mapGet]

theorem mapSetExisting_self (m : List (String × List Nat)) (e : String) (v : List Nat)
    (h : mapGet m e = some v) : mapSetExisting m e v = m := by
  induction m with
  | nil => rfl
  | cons p rest ih =>
      obtain ⟨k', v'⟩ := p
      simp only [mapGet] at h
      simp only [mapSetExisting]
      split <;> simp_all

theorem mapSetExisting_mapSetExisting (m : List (String × List Nat)) (e : String)
    (v w : List Nat) : mapSetExisting (mapSetExisting m e v) e w = mapSetExisting m e w := by
  induction m with
  | nil => rfl
  | cons p rest ih =>
      obtain ⟨k', v'⟩ := p
      simp only [mapSetExisting]
      split <;> simp_all [mapSetExisting]

theorem map_fst_mapSetExisting (m : List (String × List Nat)) (e : String) (v : List Nat) :
    (mapSetExisting m e v).map Prod.fst = m.map Prod.fst := by
  induction m with
  | nil => rfl
  | cons p rest ih =>
      obtain ⟨k', v'⟩ := p
      simp only [mapSetExisting]
      split <;> simp_all

theorem mem_mapSetExisting (m : List (String × List Nat)) (e : String) (v : List Nat)
    (p : String × List Nat) (hp : p ∈ mapSetExisting m e v) : p ∈ m ∨ p.2 = v := by
  induction m with
  | nil => simp [mapSetExisting] at hp
  | cons q rest ih =>
      obtain ⟨k', v'⟩ := q
      simp only [mapSetExisting] at hp
      split at hp
      · rcases List.mem_cons.1 hp with h | h
        · right; simp [h]
        · left; exact List.mem_cons_of_mem _ h
      · rcases List.mem_cons.1 hp with h | h
        · left; simp [h]
        · rcases ih h with h' | h'
          · left; exact List.mem_cons_of_mem _ h'
          · right; exact h'

theorem mapDelete_sublist (m : List (String × List Nat)) (e : String) :
    (mapDelete m e).Sublist m := by
  induction m with
  | nil => simp [mapDelete]
  | cons p rest ih =>
      obtain ⟨k', v'⟩ := p
      simp only [mapDelete]
      split
      · exact List.sublist_cons_self _ _
      · exact ih.cons₂ _

theorem mapDelete_append_self (m : List (String × List Nat)) (e : String) (v : List Nat)
    (h : mapGet m e = none) : mapDelete (m ++ [(e, v)]) e = m := by
  induction m with
  | nil => simp [mapDelete]
  | cons p rest ih =>
      obtain ⟨k', v'⟩ := p
      simp only [mapGet] at h
      simp only [List.cons_append, mapDelete]
      split <;> simp_all

theorem mapGet_eq_none_of_not_mem_keys (m : List (String × List Nat)) (e : String)
    (h : e ∉ m.map Prod.fst) : mapGet m e = none := by
  induction m with
  | nil => rfl
  | cons p rest ih =>
      obtain ⟨k', v'⟩ := p
      simp only [List.map_cons, List.mem_cons] at h
      push_neg at h
      simp only [mapGet]
      rw [if_neg (fun hk => h.1 hk.symm)]
      exact ih h.2

theorem mem_keys_of_mapGet_eq_some (m : List (String × List Nat)) (e : String)
    (s : List Nat) (h : mapGet m e = some s) : e ∈ m.map Prod.fst := by
  induction m with
  | nil => simp [mapGet] at h
  | cons p rest ih =>
      obtain ⟨k', v'⟩ := p
      simp only [mapGet] at h
      simp only [List.map_cons, List.mem_cons]
      by_cases hk : k' = e
      · left; exact hk.symm
      · right; rw [if_neg hk] at h; exact ih h

theorem mapGet_mapDelete_self (m : List (String × List Nat)) (e : String)
    (hk : (m.map Prod.fst).Nodup) : mapGet (mapDelete m e) e = none := by
  induction m with
  | nil => rfl
  | cons p rest ih =>
      obtain ⟨k', v'⟩ := p
      simp only [List.map_cons, List.nodup_cons] at hk
      simp only [mapDelete]
      split
      · rename_i hke
        subst hke
        exact mapGet_eq_none_of_not_mem_keys rest _ hk.1
      · simp only [mapGet]
        rw [if_neg (by assumption)]
        exact ih hk.2

theorem mapGet_mapDelete_of_ne (m : List (String × List Nat)) (k e : String)
    (h : k ≠ e) : mapGet (mapDelete m k) e = mapGet m e := by
  induction m with
  | nil => rfl
  | cons p rest ih =>
      obtain ⟨k', v'⟩ := p
      simp only [mapDelete]
      split
      · rename_i hkk
        subst hkk
        simp only [mapGet]
        rw [if_neg h]
      · simp only [mapGet]
        split <;> simp_all

/-! ### Lemmas about the Set embedding -/

theorem mem_setAdd_self (s : List Nat) (c : Nat) : c ∈ setAdd s c := by
  unfold setAdd
  split <;> simp_all

theorem mem_setAdd (s : List Nat) (c x : Nat) (hx : x ∈ setAdd s c) : x ∈ s ∨ x = c := by
  unfold setAdd at hx
  split at hx <;> simp_all

theorem setAdd_nodup (s : List Nat) (c : Nat) (hs : s.Nodup) : (setAdd s c).Nodup := by
  unfold setAdd
  split
  · exact hs
  · rename_i hc
    rw [List.nodup_append]
    refine ⟨hs, List.nodup_singleton c, ?_⟩
    intro a ha hb
    simp only [List.mem_singleton] at hb
    subst hb
    exact hc ha

theorem setAdd_ne_nil (s : List Nat) (c : Nat) : setAdd s c ≠ [] := by
  unfold setAdd
  split
  · intro h; simp_all
  · simp

theorem setAdd_setAdd (s : List Nat) (c : Nat) : setAdd (setAdd s c) c = setAdd s c := by
  unfold setAdd
  split <;> simp_all

theorem setDelete_nodup (s : List Nat) (c : Nat) (hs : s.Nodup) : (setDelete s c).Nodup :=
  hs.filter _

theorem not_mem_setDelete (s : List Nat) (c : Nat) : c ∉ setDelete s c := by
  unfold setDelete
  intro h
  have := List.of_mem_filter h
  simp at this

theorem mem_setDelete_of_mem (s : List Nat) (c x : Nat) (hx : x ∈ setDelete s c) : x ∈ s :=
  List.mem_of_mem_filter hx

theorem setDelete_of_not_mem (s : List Nat) (c : Nat) (h : c ∉ s) : setDelete s c = s := by
  unfold setDelete
  apply List.filter_eq_self.2
  intro a ha
  simp only [ne_eq, decide_eq_true_eq]
  exact fun hac => h (hac ▸ ha)

theorem setDelete_append_self (s : List Nat) (c : Nat) (h : c ∉ s) :
    setDelete (s ++ [c]) c = s := by
  have h1 : setDelete s c = s := setDelete_of_not_mem s c h
  unfold setDelete at h1 ⊢
  rw [List.filter_append, h1]
  simp

theorem mapGet_eq_some_of_mem_keys (m : List (String × List Nat)) (e : String)
    (h : e ∈ m.map Prod.fst) : ∃ s, mapGet m e = some s := by
  induction m with
  | nil => simp at h
  | cons p rest ih =>
      obtain ⟨k', v'⟩ := p
      simp only [List.map_cons, List.mem_cons] at h
      simp only [mapGet]
      by_cases hk : k' = e
      · exact ⟨v', by rw [if_pos hk]⟩
      · rw [if_neg hk]
        exact ih (h.resolve_left fun he => hk he.symm)

theorem mem_of_mapGet_eq_some (m : List (String × List Nat)) (e : String) (s : List Nat)
    (h : mapGet m e = some s) : (e, s) ∈ m := by
  induction m with
  | nil => simp [mapGet] at h
  | cons p rest ih =>
      obtain ⟨k', v'⟩ := p
      simp only [mapGet] at h
      split at h
      · rename_i hk
        subst hk
        simp_all
      · exact List.mem_cons_of_mem _ (ih h)

/-! ### The dispatch loop iterates exactly over the snapshot -/

theorem dispatchLoop_eq (act : Nat → EventTarget → EventTarget) (s : List Nat)
    (t : EventTarget) : dispatchLoop act s t = (s.foldl (fun st c => act c st) t, s) := by
  induction s generalizing t with
  | nil => rfl
  | cons c rest ih => simp [dispatchLoop, ih]

theorem dispatchEvent_log (act : Nat → EventTarget → EventTarget) (t : EventTarget)
    (e : String) : (t.dispatchEvent act e).2 = registered t e := by
  unfold EventTarget.dispatchEvent registered
  cases hm : mapGet t.listeners e with
  | none => rfl
  | some s => simp [dispatchLoop_eq]

theorem dispatchEvent_state (act : Nat → EventTarget → EventTarget) (t : EventTarget)
    (e : String) :
    (t.dispatchEvent act e).1 = (registered t e).foldl (fun st c => act c st) t := by
  unfold EventTarget.dispatchEvent registered
  cases hm : mapGet t.listeners e with
  | none => rfl
  | some s => simp [dispatchLoop_eq]

theorem dispatchEvent_pureAct_state (t : EventTarget) (e : String) :
    (t.dispatchEvent pureAct e).1 = t := by
  rw [dispatchEvent_state]
  generalize registered t e = s
  induction s with
  | nil => rfl
  | cons c rest ih =>
      simp only [List.foldl_cons]
      exact ih

/-! ### How each operation transforms the registered snapshot -/

theorem registered_add_self (t : EventTarget) (e : String) (c : Nat) :
    registered (t.addEventListener e c) e = setAdd (registered t e) c := by
  unfold EventTarget.addEventListener registered
  cases hm : mapGet t.listeners e with
  | none => simp [mapGet_append_self t.listeners e _ hm, setAdd]
  | some s => simp [mapGet_mapSetExisting_self t.listeners e s _ hm]

theorem registered_add_of_ne (t : EventTarget) (e' e : String) (c : Nat) (h : e' ≠ e) :
    registered (t.addEventListener e' c) e = registered t e := by
  unfold EventTarget.addEventListener registered
  cases hm : mapGet t.listeners e' with
  | none => simp [mapGet_append_of_ne t.listeners e' e _ h]
  | some s => simp [mapGet_mapSetExisting_of_ne t.listeners e' e _ h]

theorem registered_remove_self (t : EventTarget) (e : String) (c : Nat)
    (hk : (t.listeners.map Prod.fst).Nodup) :
    registered (t.removeEventListener e c) e = setDelete (registered t e) c := by
  unfold EventTarget.removeEventListener registered
  cases hm : mapGet t.listeners e with
  | none => simp [hm, setDelete]
  | some s =>
      simp only [hm, Option.getD_some]
      split
      · rename_i hnil
        simp [mapGet_mapDelete_self t.listeners e hk, hnil]
      · simp [mapGet_mapSetExisting_self t.listeners e s _ hm]

theorem registered_remove_of_ne (t : EventTarget) (e' e : String) (c : Nat) (h : e' ≠ e) :
    registered (t.removeEventListener e' c) e = registered t e := by
  unfold EventTarget.removeEventListener registered
  cases hm : mapGet t.listeners e' with
  | none => rfl
  | some s =>
      simp only
      split
      · simp [mapGet_mapDelete_of_ne t.listeners e' e h]
      · simp [mapGet_mapSetExisting_of_ne t.listeners e' e _ h]

/-! ### Preservation of the representation invariant -/

theorem Inv_emptyTarget : Inv emptyTarget := by
  constructor
  · simp [emptyTarget]
  · simp [emptyTarget]

theorem Inv_add (t : EventTarget) (e : String) (c : Nat) (h : Inv t) :
    Inv (t.addEventListener e c) := by
  obtain ⟨hkeys, hsets⟩ := h
  unfold EventTarget.addEventListener
  cases hm : mapGet t.listeners e with
  | none =>
      constructor
      · simp only [List.map_append, List.map_cons, List.map_nil]
        rw [List.nodup_append]
        refine ⟨hkeys, List.nodup_singleton e, ?_⟩
        intro a ha hb
        simp only [List.mem_singleton] at hb
        obtain ⟨s, hs⟩ := mapGet_eq_some_of_mem_keys t.listeners e (hb ▸ ha)
        rw [hs] at hm
        exact Option.noConfusion hm
      · intro p hp
        rcases List.mem_append.1 hp with h' | h'
        · exact hsets p h'
        · simp only [List.mem_singleton] at h'
          subst h'
          exact ⟨setAdd_nodup [] c (List.nodup_nil), setAdd_ne_nil [] c⟩
  | some s =>
      constructor
      · simpa [map_fst_mapSetExisting] using hkeys
      · intro p hp
        rcases mem_mapSetExisting t.listeners e _ p hp with h' | h'
        · exact hsets p h'
        · have hsnd : s.Nodup := (hsets (e, s) (mem_of_mapGet_eq_some t.listeners e s hm)).1
          rw [h']
          exact ⟨setAdd_nodup s c hsnd, setAdd_ne_nil s c⟩

theorem Inv_remove (t : EventTarget) (e : String) (c : Nat) (h : Inv t) :
    Inv (t.removeEventListener e c) := by
  obtain ⟨hkeys, hsets⟩ := h
  unfold EventTarget.removeEventListener
  cases hm : mapGet t.listeners e with
  | none => exact ⟨hkeys, hsets⟩
  | some s =>
      simp only
      split
      · constructor
        · exact hkeys.sublist ((mapDelete_sublist t.listeners e).map Prod.fst)
        · intro p hp
          exact hsets p ((mapDelete_sublist t.listeners e).mem hp)
      · rename_i hnil
        constructor
        · simpa [map_fst_mapSetExisting] using hkeys
        · intro p hp
          rcases mem_mapSetExisting t.listeners e _ p hp with h' | h'
          · exact hsets p h'
          · have hsnd : s.Nodup := (hsets (e, s) (mem_of_mapGet_eq_some t.listeners e s hm)).1
            rw [h']
            exact ⟨setDelete_nodup s c hsnd, hnil⟩

theorem Inv_applyOp (t : EventTarget) (op : Op) (h : Inv t) : Inv (applyOp t op) := by
  cases op with
  | add e c => exact Inv_add t e c h
  | remove e c => exact Inv_remove t e c h

theorem Inv_applyOps (ops : List Op) (t : EventTarget) (h : Inv t) :
    Inv (applyOps ops t) := by
  induction ops generalizing t with
  | nil => exact h
  | cons op rest ih => exact ih (applyOp t op) (Inv_applyOp t op h)

theorem registered_nodup (t : EventTarget) (e : String) (h : Inv t) :
    (registered t e).Nodup := by
  unfold registered
  cases hm : mapGet t.listeners e with
  | none => exact List.nodup_nil
  | some s => exact (h.2 (e, s) (mem_of_mapGet_eq_some t.listeners e s hm)).1

/-! ### Trace lemmas: the snapshot under a sequence of operations -/

theorem registered_applyOp (t : EventTarget) (op : Op) (e : String)
    (hk : (t.listeners.map Prod.fst).Nodup) :
    registered (applyOp t op) e = siStep e (registered t e) op := by
  cases op with
  | add e' c =>
      by_cases he : e' = e
      · subst he
        simp [applyOp, siStep, registered_add_self]
      · simp [applyOp, siStep, he, registered_add_of_ne t e' e c he]
  | remove e' c =>
      by_cases he : e' = e
      · subst he
        simp [applyOp, siStep, registered_remove_self t e' c hk]
      · simp [applyOp, siStep, he, registered_remove_of_ne t e' e c he]

theorem registered_applyOps (ops : List Op) (t : EventTarget) (e : String) (hInv : Inv t) :
    registered (applyOps ops t) e = ops.foldl (siStep e) (registered t e) := by
  induction ops generalizing t with
  | nil => rfl
  | cons op rest ih =>
      show registered (applyOps rest (applyOp t op)) e = _
      rw [ih (applyOp t op) (Inv_applyOp t op hInv), registered_applyOp t op e hInv.1]
      rfl

theorem mem_registered_applyOps (ops : List Op) (t : EventTarget) (E : String) (H : Nat)
    (hInv : Inv t) (h : H ∈ registered (applyOps ops t) E) :
    H ∈ registered t E ∨ Op.add E H ∈ ops := by
  induction ops generalizing t with
  | nil => exact Or.inl h
  | cons op rest ih =>
      have h' : H ∈ registered (applyOps rest (applyOp t op)) E := h
      rcases ih (applyOp t op) (Inv_applyOp t op hInv) h' with hmem | hin
      · rw [registered_applyOp t op E hInv.1] at hmem
        cases op with
        | add e' c =>
            by_cases he : e' = E
            · subst he
              simp only [siStep, if_pos rfl] at hmem
              rcases mem_setAdd _ c H hmem with h1 | h1
              · exact Or.inl h1
              · subst h1
                exact Or.inr (List.mem_cons_self _ _)
            · simp only [siStep, if_neg he] at hmem
              exact Or.inl hmem
        | remove e' c =>
            by_cases he : e' = E
            · subst he
              simp only [siStep, if_pos rfl] at hmem
              exact Or.inl (mem_setDelete_of_mem _ c H hmem)
            · simp only [siStep, if_neg he] at hmem
              exact Or.inl hmem
      · exact Or.inr (List.mem_cons_of_mem _ hin)

/-! ### Shared operation-level lemmas -/

theorem addEventListener_idem (t : EventTarget) (e : String) (c : Nat) :
    (t.addEventListener e c).addEventListener e c = t.addEventListener e c := by
  cases hm : mapGet t.listeners e with
  | none =>
      have h0 : t.addEventListener e c = ⟨t.listeners ++ [(e, setAdd [] c)]⟩ := by
        simp [EventTarget.addEventListener, hm]
      have h1 : mapGet (t.listeners ++ [(e, setAdd [] c)]) e = some (setAdd [] c) :=
        mapGet_append_self t.listeners e _ hm
      rw [h0]
      simp only [EventTarget.addEventListener, h1, setAdd_setAdd]
      rw [mapSetExisting_self _ e _ h1]
  | some s =>
      have h0 : t.addEventListener e c = ⟨mapSetExisting t.listeners e (setAdd s c)⟩ := by
        simp [EventTarget.addEventListener, hm]
      have h1 : mapGet (mapSetExisting t.listeners e (setAdd s c)) e = some (setAdd s c) :=
        mapGet_mapSetExisting_self t.listeners e s _ hm
      rw [h0]
      simp only [EventTarget.addEventListener, h1, setAdd_setAdd]
      rw [mapSetExisting_mapSetExisting]

theorem removeEventListener_of_none (t : EventTarget) (e : String) (c : Nat)
    (h : mapGet t.listeners e = none) : t.removeEventListener e c = t := by
  simp [EventTarget.removeEventListener, h]

theorem removeEventListener_noop (t : EventTarget) (e : String) (c : Nat)
    (hInv : Inv t) (hc : c ∉ registered t e) : t.removeEventListener e c = t := by
  cases hm : mapGet t.listeners e with
  | none => exact removeEventListener_of_none t e c hm
  | some s =>
      have hcs : c ∉ s := by
        unfold registered at hc
        rw [hm] at hc
        exact hc
      have hdel : setDelete s c = s := setDelete_of_not_mem s c hcs
      have hne : s ≠ [] := (hInv.2 (e, s) (mem_of_mapGet_eq_some t.listeners e s hm)).2
      simp only [EventTarget.removeEventListener, hm, hdel]
      rw [if_neg hne, mapSetExisting_self _ e _ hm]

/-! ### The claims -/

/-- Claim C1: for every invariant-satisfying registry state and event name
E, if E has a Map entry then dispatch invokes each handle of the entry
exactly once (the invocation log is exactly the entry, in which each
handle occurs once), the callback bodies are executed sequentially, in
order, by folding them over the state before dispatch returns; if E has no
entry, dispatch invokes nothing and leaves the state unchanged. -/
theorem claim_C1 (t : EventTarget) (e : String)
    (act : Nat → EventTarget → EventTarget) (hInv : Inv t) :
    (∀ s, mapGet t.listeners e = some s →
        (t.dispatchEvent act e).2 = s ∧
        (∀ c ∈ s, ((t.dispatchEvent act e).2).count c = 1) ∧
        (t.dispatchEvent act e).1 = s.foldl (fun st c => act c st) t) ∧
    (mapGet t.listeners e = none → t.dispatchEvent act e = (t, [])) := by
  constructor
  · intro s hs
    have hreg : registered t e = s := by
      unfold registered
      rw [hs]
      rfl
    have hlog := dispatchEvent_log act t e
    rw [hreg] at hlog
    refine ⟨hlog, ?_, ?_⟩
    · intro c hc
      rw [hlog]
      have hnd : s.Nodup := (hInv.2 (e, s) (mem_of_mapGet_eq_some t.listeners e s hs)).1
      exact List.count_eq_one_of_mem hnd hc
    · rw [dispatchEvent_state, hreg]
  · intro hnone
    simp [EventTarget.dispatchEvent, hnone]

/-- Witness for claim C1 at a concrete registry with two handles under
event name a. -/
theorem claim_C1_witness :
    ((⟨[("a", [3, 4])]⟩ : EventTarget).dispatchEvent pureAct "a").2 = [3, 4] :=
  ((claim_C1 ⟨[("a", [3, 4])]⟩ "a" pureAct (by decide)).1 [3, 4] (by decide)).1

/-- Claim C2: adding the same handle twice under the same event name
leaves the registry in exactly the state of a single addition, and one
subsequent dispatch invokes the handle exactly once. -/
theorem claim_C2 (t : EventTarget) (e : String) (c : Nat)
    (act : Nat → EventTarget → EventTarget) (hInv : Inv t) :
    (t.addEventListener e c).addEventListener e c = t.addEventListener e c ∧
    ((((t.addEventListener e c).addEventListener e c).dispatchEvent act e).2).count c
      = 1 := by
  refine ⟨addEventListener_idem t e c, ?_⟩
  rw [addEventListener_idem t e c, dispatchEvent_log, registered_add_self]
  exact List.count_eq_one_of_mem
    (setAdd_nodup _ c (registered_nodup t e hInv)) (mem_setAdd_self _ c)

/-- Witness for claim C2: two duplicate registrations on an empty
registry, then a dispatch invoking the handle once. -/
theorem claim_C2_witness :
    (((emptyTarget.addEventListener "hello" 0).addEventListener "hello"
      0).dispatchEvent pureAct "hello").2.count 0 = 1 :=
  (claim_C2 emptyTarget "hello" 0 pureAct (by decide)).2

/-- Claim C3: for every callback semantics (including ones that add or
remove listeners re-entrantly), the handles dispatch invokes are exactly
the ones registered for the event name at the moment dispatch began: a
handle absent from that snapshot (such as one added mid-dispatch) is not
invoked, and a handle in the snapshot (even one removed mid-dispatch) is
invoked. -/
theorem claim_C3 (t : EventTarget) (e : String)
    (act : Nat → EventTarget → EventTarget) :
    (t.dispatchEvent act e).2 = registered t e ∧
    (∀ h2, h2 ∉ registered t e → h2 ∉ (t.dispatchEvent act e).2) ∧
    (∀ h3 ∈ registered t e, h3 ∈ (t.dispatchEvent act e).2) := by
  have hlog := dispatchEvent_log act t e
  refine ⟨hlog, ?_, ?_⟩
  · intro h2 hn
    rw [hlog]
    exact hn
  · intro h3 hm
    rw [hlog]
    exact hm

/-- Witness for claim C3: handles 0 and 1 are registered; invoking handle
0 adds handle 5 and removes handle 1 re-entrantly. Handle 5 is not invoked
in this dispatch and handle 1 is, while the final state shows the
mutations took effect. -/
theorem claim_C3_witness :
    5 ∉ (reentrantTarget.dispatchEvent reentrantAct "evt").2 ∧
    1 ∈ (reentrantTarget.dispatchEvent reentrantAct "evt").2 ∧
    registered (reentrantTarget.dispatchEvent reentrantAct "evt").1 "evt" = [0, 5] :=
  ⟨(claim_C3 reentrantTarget "evt" reentrantAct).2.1 5 (by decide),
   (claim_C3 reentrantTarget "evt" reentrantAct).2.2 1 (by decide),
   by decide⟩

/-- Claim C4: the representation invariant — in particular that every
event name present in the Map holds a non-empty Set — is preserved by
addEventListener, by removeEventListener, and by a dispatch whose
callbacks do not mutate the registry (which leaves the state unchanged);
and removing the last handle of an entry deletes the entry itself. -/
theorem claim_C4 (t : EventTarget) (e : String) (c : Nat) (hInv : Inv t) :
    Inv (t.addEventListener e c) ∧
    Inv (t.removeEventListener e c) ∧
    (t.dispatchEvent pureAct e).1 = t ∧
    (∀ s, mapGet t.listeners e = some s → setDelete s c = [] →
      mapGet (t.removeEventListener e c).listeners e = none) := by
  refine ⟨Inv_add t e c hInv, Inv_remove t e c hInv,
    dispatchEvent_pureAct_state t e, ?_⟩
  intro s hs hdel
  simp only [EventTarget.removeEventListener, hs]
  rw [if_pos hdel]
  exact mapGet_mapDelete_self t.listeners e hInv.1

/-- Witness for claim C4: removing the only handle of event name a
deletes the Map entry for a. -/
theorem claim_C4_witness :
    mapGet ((⟨[("a", [7])]⟩ : EventTarget).removeEventListener "a" 7).listeners "a"
      = none :=
  (claim_C4 ⟨[("a", [7])]⟩ "a" 7 (by decide)).2.2.2 [7] (by decide) (by decide)

/-- Claim C5: removing from an absent event name, removing an
unregistered handle, and dispatching an absent event name are silent
no-ops that leave the state exactly unchanged (no failure is
representable: all three operations are total functions); removal is
idempotent and the removed handle is not invoked by a subsequent
dispatch. -/
theorem claim_C5 (t : EventTarget) (e : String) (c : Nat)
    (act : Nat → EventTarget → EventTarget) (hInv : Inv t) :
    (mapGet t.listeners e = none → t.removeEventListener e c = t) ∧
    (c ∉ registered t e → t.removeEventListener e c = t) ∧
    (mapGet t.listeners e = none → t.dispatchEvent act e = (t, [])) ∧
    (t.removeEventListener e c).removeEventListener e c
      = t.removeEventListener e c ∧
    c ∉ ((t.removeEventListener e c).dispatchEvent act e).2 := by
  have hreg : registered (t.removeEventListener e c) e
      = setDelete (registered t e) c := registered_remove_self t e c hInv.1
  have hnotmem : c ∉ registered (t.removeEventListener e c) e := by
    rw [hreg]
    exact not_mem_setDelete _ c
  refine ⟨fun h => removeEventListener_of_none t e c h,
    fun h => removeEventListener_noop t e c hInv h, ?_, ?_, ?_⟩
  · intro hnone
    simp [EventTarget.dispatchEvent, hnone]
  · exact removeEventListener_noop _ e c (Inv_remove t e c hInv) hnotmem
  · rw [dispatchEvent_log]
    exact hnotmem

/-- Witness for claim C5: double removal of an already-absent handle on a
concrete registry is a no-op and the handle stays uninvoked. -/
theorem claim_C5_witness :
    ((⟨[("a", [7])]⟩ : EventTarget).removeEventListener "b"
        9).removeEventListener "b" 9
      = (⟨[("a", [7])]⟩ : EventTarget).removeEventListener "b" 9 ∧
    9 ∉ (((⟨[("a", [7])]⟩ : EventTarget).removeEventListener "b"
        9).dispatchEvent pureAct "b").2 :=
  ⟨(claim_C5 ⟨[("a", [7])]⟩ "b" 9 pureAct (by decide)).2.2.2.1,
   (claim_C5 ⟨[("a", [7])]⟩ "b" 9 pureAct (by decide)).2.2.2.2⟩

/-- Claim C6: over any operation sequence from a fresh registry in which
every addition of handle H happens under event name A, dispatching a
different event name B never invokes H. -/
theorem claim_C6 (ops : List Op) (A B : String) (H : Nat)
    (act : Nat → EventTarget → EventTarget)
    (hAB : A ≠ B) (hOnly : addsOnlyUnder ops A H) :
    H ∉ ((applyOps ops emptyTarget).dispatchEvent act B).2 := by
  rw [dispatchEvent_log]
  intro hmem
  rcases mem_registered_applyOps ops emptyTarget B H Inv_emptyTarget hmem with h | h
  · simp [registered, emptyTarget, mapGet] at h
  · have : B = A := hOnly (Op.add B H) h rfl
    exact hAB this.symm

/-- Witness for claim C6: a handle registered only under a is not invoked
by dispatching b. -/
theorem claim_C6_witness :
    7 ∉ ((applyOps [Op.add "a" 7, Op.remove "a" 7, Op.add "a" 7]
        emptyTarget).dispatchEvent pureAct "b").2 :=
  claim_C6 [Op.add "a" 7, Op.remove "a" 7, Op.add "a" 7] "a" "b" 7 pureAct
    (by decide) (by decide)

/-- Claim C7: addEventListener is total on all event-name strings, with
the empty string treated exactly like any other name: after adding a
handle under any name — the empty string included — dispatching that name
invokes the handle. -/
theorem claim_C7 (t : EventTarget) (h : Nat) (e : String)
    (act : Nat → EventTarget → EventTarget) :
    h ∈ ((t.addEventListener e h).dispatchEvent act e).2 ∧
    h ∈ ((t.addEventListener "" h).dispatchEvent act "").2 := by
  constructor <;>
  · rw [dispatchEvent_log, registered_add_self]
    exact mem_setAdd_self _ h

/-- Claim C8: the sample driver scenario. After registering logHello on
hello, logWorld and a second anonymous listener on world, and logHello on
hello again, dispatching hello invokes exactly logHello once and
dispatching world invokes exactly the two world listeners; after removing
logHello from hello, dispatching hello invokes nothing and dispatching
world again invokes exactly the two world listeners. -/
theorem claim_C8 :
    (sampleTarget1.dispatchEvent pureAct "hello").2 = [logHello] ∧
    (sampleTarget1.dispatchEvent pureAct "world").2 = [logWorld, worldAgain] ∧
    (sampleTarget2.dispatchEvent pureAct "hello").2 = [] ∧
    (sampleTarget2.dispatchEvent pureAct "world").2 = [logWorld, worldAgain] := by
  decide

/-- Counterexample to claim C9 as stated: after add(e,1), add(e,2),
remove(e,1), add(e,1), dispatch of e invokes handle 2 before handle 1,
although handle 1 was first registered before handle 2 — the invocation
order is not first-registration order. -/
theorem claim_C9_counterexample :
    ((applyOps reAddOps emptyTarget).dispatchEvent pureAct "e").2 = [2, 1] ∧
    claimedDispatchOrder reAddOps (applyOps reAddOps emptyTarget) "e" = [1, 2] ∧
    ((applyOps reAddOps emptyTarget).dispatchEvent pureAct "e").2 ≠
      claimedDispatchOrder reAddOps (applyOps reAddOps emptyTarget) "e" := by
  decide

/-- Claim C9 (amended): dispatch invokes the snapshotted handles in a
deterministic order, the insertion order of the underlying Set — each
handle sits at the position of its most recent registration while absent;
a duplicate registration of a present handle does not reposition it. The
invocation log is a function of the operation sequence alone, so two runs
with the same registration sequence produce the same invocation order. -/
theorem claim_C9 (ops : List Op) (e : String)
    (act : Nat → EventTarget → EventTarget) :
    ((applyOps ops emptyTarget).dispatchEvent act e).2 = setInsertionOrder ops e := by
  rw [dispatchEvent_log, registered_applyOps ops emptyTarget e Inv_emptyTarget]
  rfl

/-- Claim C10: adding a handle that is not currently registered for an
event name and then removing it restores the registry to exactly its
prior state, including deleting a freshly created Map entry. -/
theorem claim_C10 (t : EventTarget) (e : String) (h : Nat) (hInv : Inv t)
    (hnot : h ∉ registered t e) :
    (t.addEventListener e h).removeEventListener e h = t := by
  cases hm : mapGet t.listeners e with
  | none =>
      have h0 : t.addEventListener e h = ⟨t.listeners ++ [(e, setAdd [] h)]⟩ := by
        simp [EventTarget.addEventListener, hm]
      have hset : setAdd [] h = [h] := by simp [setAdd]
      have h1 : mapGet (t.listeners ++ [(e, setAdd [] h)]) e = some (setAdd [] h) :=
        mapGet_append_self t.listeners e _ hm
      have hdel : setDelete (setAdd [] h) h = [] := by
        rw [hset]
        simp [setDelete]
      rw [h0]
      simp only [EventTarget.removeEventListener, h1]
      rw [if_pos hdel, hset, mapDelete_append_self t.listeners e [h] hm]
  | some s =>
      have hs : h ∉ s := by
        unfold registered at hnot
        rw [hm] at hnot
        exact hnot
      have hset : setAdd s h = s ++ [h] := by simp [setAdd, hs]
      have h0 : t.addEventListener e h = ⟨mapSetExisting t.listeners e (s ++ [h])⟩ := by
        simp [EventTarget.addEventListener, hm, hset]
      have h1 : mapGet (mapSetExisting t.listeners e (s ++ [h])) e = some (s ++ [h]) :=
        mapGet_mapSetExisting_self t.listeners e s _ hm
      have hdel : setDelete (s ++ [h]) h = s := setDelete_append_self s h hs
      have hne : s ≠ [] := (hInv.2 (e, s) (mem_of_mapGet_eq_some t.listeners e s hm)).2
      rw [h0]
      simp only [EventTarget.removeEventListener, h1, hdel]
      rw [if_neg hne, mapSetExisting_mapSetExisting,
        mapSetExisting_self t.listeners e s hm]

/-- Witness for claim C10: adding a handle under a fresh event name and
removing it again restores the original one-entry registry exactly. -/
theorem claim_C10_witness :
    ((⟨[("a", [4])]⟩ : EventTarget).addEventListener "b" 9).removeEventListener "b" 9
      = (⟨[("a", [4])]⟩ : EventTarget) :=
  claim_C10 ⟨[("a", [4])]⟩ "b" 9 (by decide) (by decide)

end EventTargetSpec
